import Mathlib

/-!
Shallow embedding of the dual-API error-handling core of the utils-ts
repository: the `chunk` and `groupBy` operations, the shared
`StandardErrorHandler` (normalize / handleError / wrapResult), the generic
`normalizeOptions` merge, and the `createDualApi` / `createDualApiStrict`
calling-convention adapters.

Modelling conventions:
  - A JavaScript record field is a `JsField`: absent from the record,
    present with value `undefined`, or present with a proper value.  Spread
    merge copies present fields (including explicitly-`undefined` ones).
  - JavaScript numbers are modelled as integers or NaN (`JsNum`); the only
    numeric behaviour the claims exercise is integer sizes, NaN and
    non-number detection.
  - A thrown `UtilsError` (which carries a `code`) is distinguished from a
    thrown plain `Error` (which has no `code` field) by `JsError`.
  - An operation invocation's observable behaviour is an `Outcome`: it
    threw, returned a raw unwrapped value, or returned a `Result` record.
-/

namespace UtilsTs

/-- Presence of a field in a JavaScript record: absent, present with value
`undefined`, or present with a real value. -/
inductive JsField (α : Type) where
  | absent : JsField α
  | undefV : JsField α
  | val : α → JsField α
deriving DecidableEq

/-- JavaScript number restricted to the integer/NaN fragment the library
exercises. -/
inductive JsNum where
  | nan : JsNum
  | int : Int → JsNum
deriving DecidableEq

/-- The `onError` strategy union `'throw' | 'return'` from `result.ts`. -/
inductive ErrorStrategy where
  | throwStrat : ErrorStrategy
  | returnStrat : ErrorStrategy
deriving DecidableEq

/-- Small universe of diagnostic values stored in an error's `details`. -/
inductive JsLite where
  | num : JsNum → JsLite
  | str : String → JsLite
  | bool : Bool → JsLite
  | undefV : JsLite
deriving DecidableEq

/-- The `UtilsError` class from `error.ts`: a `code`, a `message` and a
`details` record. -/
structure UtilsError where
  code : String
  message : String
  details : List (String × JsLite)
deriving DecidableEq

/-- A thrown or returned error value: either a `UtilsError` (carrying a
`code` field) or a plain `new Error(message)` (no `code` field). -/
inductive JsError where
  | utils : UtilsError → JsError
  | plain : String → JsError
deriving DecidableEq

/-- Reading the `code` property of an error: plain `Error` objects have
none. -/
def JsError.code : JsError → Option String
  | .utils e => some e.code
  | .plain _ => none

/-- The `Result<T>` type from `result.ts`: `{ok: true, value}` or
`{ok: false, error}`. -/
inductive Res (α : Type) where
  | ok : α → Res α
  | err : JsError → Res α
deriving DecidableEq

/-- Observable behaviour of one invocation: an exception propagated, a raw
unwrapped value was returned, or a `Result` record was returned. -/
inductive Outcome (α : Type) where
  | thrown : JsError → Outcome α
  | raw : α → Outcome α
  | res : Res α → Outcome α
deriving DecidableEq

/-- Spread semantics for one field: `\x7b...d, ...p\x7d` keeps `p`'s field
whenever it is present on `p` (even with value `undefined`), else `d`'s. -/
def overrideField {α : Type} (d p : JsField α) : JsField α :=
  match p with
  | .absent => d
  | x => x

/-- The test `options.onError === 'return'` on a record field. -/
def isReturn (f : JsField ErrorStrategy) : Bool :=
  match f with
  | .val .returnStrat => true
  | _ => false

/-- The nullish coalescing `options.onError ?? 'throw'`. -/
def coalesceThrow (f : JsField ErrorStrategy) : ErrorStrategy :=
  match f with
  | .val v => v
  | _ => .throwStrat

/-- JavaScript truthiness of a boolean-valued record field. -/
def boolTruthy (f : JsField Bool) : Bool :=
  match f with
  | .val b => b
  | _ => false

/-- JavaScript truthiness of a string-valued record field (empty string is
falsy). -/
def strTruthy (f : JsField String) : Bool :=
  match f with
  | .val s => !(s == "")
  | _ => false

/-- Reading a possibly-missing field for storage into `details`. -/
def numFieldLite (f : JsField JsNum) : JsLite :=
  match f with
  | .val n => .num n
  | _ => .undefV

/-- Reading a possibly-missing string field for storage into `details`. -/
def strFieldLite (f : JsField String) : JsLite :=
  match f with
  | .val s => .str s
  | _ => .undefV

/-- Reading a possibly-missing boolean field for storage into `details`. -/
def boolFieldLite (f : JsField Bool) : JsLite :=
  match f with
  | .val b => .bool b
  | _ => .undefV

/-- `StandardErrorHandler.handleError`: builds the `UtilsError` from the
error-context factory output and either returns `err(e)` (strategy
`'return'`) or throws it (strategy `'throw'`). -/
def handleErrorGeneric {α : Type} (ctx : UtilsError) (onErr : ErrorStrategy) : Outcome α :=
  match onErr with
  | .returnStrat => .res (.err (.utils ctx))
  | .throwStrat => .thrown (.utils ctx)

/-- `StandardErrorHandler.wrapResult`: wraps the computed value in
`ok(value)` when the strategy is `'return'`, else returns it unwrapped. -/
def wrapResult {α : Type} (onError : JsField ErrorStrategy) (v : α) : Outcome α :=
  if isReturn onError then .res (.ok v) else .raw v

/-- The generic `normalizeOptions(input, defaults)` from
`runtime/internal/options.ts`, with a record modelled pointwise as a
function from keys to fields: a missing input yields the defaults, else
spread merge `\x7b...defaults, ...input\x7d`. -/
def normalizeOptions {K V : Type} (input : Option (K → JsField V)) (defaults : K → JsField V) :
    K → JsField V :=
  match input with
  | none => defaults
  | some p => fun k => overrideField (defaults k) (p k)

/-! ### chunk -/

/-- The `ChunkOptions` record: `size`, optional `label`, optional
`onError`.  Partial and normalized records share this representation; a
partial record simply has absent fields. -/
structure ChunkOptions where
  size : JsField JsNum
  label : JsField String
  onError : JsField ErrorStrategy
deriving DecidableEq

/-- The chunk handler's defaults `\x7b size: 1, onError: 'throw' \x7d`. -/
def chunkDefaults : ChunkOptions :=
  { size := .val (.int 1), label := .absent, onError := .val .throwStrat }

/-- `chunkErrorHandler.normalize`: spread of the caller record over the
chunk defaults (`\x7b...defaults, ...(options ?? \x7b\x7d)\x7d`). -/
def chunkHandlerNormalize (input : Option ChunkOptions) : ChunkOptions :=
  match input with
  | none => chunkDefaults
  | some o =>
    { size := overrideField chunkDefaults.size o.size,
      label := overrideField chunkDefaults.label o.label,
      onError := overrideField chunkDefaults.onError o.onError }

/-- The chunk error-context factory: code `INVALID_CHUNK_SIZE`, a message
depending on the truthiness of `label`, and `\x7bsize, label\x7d` details. -/
def chunkErrorContext (o : ChunkOptions) : UtilsError :=
  { code := "INVALID_CHUNK_SIZE",
    message :=
      match o.label with
      | .val s =>
        if s == "" then "Chunk size must be greater than 0"
        else "Chunk size must be greater than 0 for " ++ s
      | _ => "Chunk size must be greater than 0",
    details := [("size", numFieldLite o.size), ("label", strFieldLite o.label)] }

/-- Recursion engine for the chunking loop, structurally recursive on a
fuel counter so that it is kernel-evaluable; the fuel is always at least
the list length at the call site, which makes the zero-fuel branch
unreachable for positive sizes. -/
def chunkCoreFuel {α : Type} (s : Nat) : Nat → List α → List (List α)
  | _, [] => []
  | 0, _ :: _ => []
  | fuel + 1, x :: xs => (x :: xs.take (s - 1)) :: chunkCoreFuel s fuel (xs.drop (s - 1))

/-- The core chunking loop of `chunkImpl`: for a positive size `s`,
`array.slice(index, index + s)` pushed for `index = 0, s, 2s, ...`.  For
`s ≥ 1` the head chunk is `l.take s` and the loop continues on
`l.drop s`. -/
def chunkCore {α : Type} (s : Nat) (l : List α) : List (List α) :=
  chunkCoreFuel s l.length l

/-- `chunkImpl`: validates that `size` is a non-NaN number and positive;
on failure, routes through the handler with `onError ?? 'throw'`; on
success, chunks and wraps via `wrapResult`. -/
def chunkImpl {α : Type} (array : List α) (o : ChunkOptions) : Outcome (List (List α)) :=
  match o.size with
  | .val (.int i) =>
    if i ≤ 0 then handleErrorGeneric (chunkErrorContext o) (coalesceThrow o.onError)
    else wrapResult o.onError (chunkCore i.toNat array)
  | _ => handleErrorGeneric (chunkErrorContext o) (coalesceThrow o.onError)

/-- The non-array argument accepted by `chunk`'s option position: a bare
number shorthand or a `ChunkOptions` record. -/
inductive ChunkOptsArg where
  | num : JsNum → ChunkOptsArg
  | opts : ChunkOptions → ChunkOptsArg

/-- `normalizeChunkOptions`: a bare number becomes
`\x7bsize, onError: 'throw'\x7d`; anything else goes through the handler's
normalize. -/
def normalizeChunkOptions (input : Option ChunkOptsArg) : ChunkOptions :=
  match input with
  | some (.num n) => { size := .val n, label := .absent, onError := .val .throwStrat }
  | some (.opts o) => chunkHandlerNormalize (some o)
  | none => chunkHandlerNormalize none

/-- Result of calling a dual-shape operation: an immediate result
(data-first) or a curried continuation awaiting the data (data-last). -/
inductive DualResult (α β : Type) where
  | imm : β → DualResult α β
  | curried : (List α → β) → DualResult α β

/-- The public `chunk`: a non-array first argument (`Sum.inr`) selects the
curried data-last form; an array first argument (`Sum.inl`) is data-first
with the second argument as size-or-options. -/
def chunk {α : Type} (arg1 : Sum (List α) ChunkOptsArg) (arg2 : Option ChunkOptsArg) :
    DualResult α (Outcome (List (List α))) :=
  match arg1 with
  | .inr o => .curried (fun l => chunkImpl l (normalizeChunkOptions (some o)))
  | .inl l => .imm (chunkImpl l (normalizeChunkOptions arg2))

/-! ### groupBy -/

/-- A value a grouping selector can produce (or a property read can
yield): string, number, `undefined` or `null`. -/
inductive KeyVal where
  | str : String → KeyVal
  | num : JsNum → KeyVal
  | undefV : KeyVal
  | nullV : KeyVal
deriving DecidableEq

/-- JavaScript `String(n)` on the modelled number fragment. -/
def jsNumToString : JsNum → String
  | .nan => "NaN"
  | .int i => toString i

/-- JavaScript `String(key)` as applied to a grouping key. -/
def keyToString : KeyVal → String
  | .str s => s
  | .num n => jsNumToString n
  | .undefV => "undefined"
  | .nullV => "null"

/-- The `key === undefined || key === null` test in `groupByImpl`. -/
def isBadKey : KeyVal → Bool
  | .undefV => true
  | .nullV => true
  | _ => false

/-- A groupBy selector: a function item, a string property key, or a
numeric property key. -/
inductive Selector (α : Type) where
  | fn : (α → KeyVal) → Selector α
  | key : String → Selector α
  | numKey : JsNum → Selector α

/-- Evaluating `typeof selector === 'function' ? selector(item) :
item[selector]`, with property access supplied by `get`. -/
def evalSelector {α : Type} (get : α → String → KeyVal) : Selector α → α → KeyVal
  | .fn f, item => f item
  | .key k, item => get item k
  | .numKey n, item => get item (jsNumToString n)

/-- The `GroupByOptions` record: `selector`, optional `allowUndefined`,
optional `onError`. -/
structure GroupByOptions (α : Type) where
  selector : JsField (Selector α)
  allowUndefined : JsField Bool
  onError : JsField ErrorStrategy

/-- The groupBy handler's defaults
`\x7b selector: '', allowUndefined: false, onError: 'throw' \x7d`. -/
def groupByDefaults (α : Type) : GroupByOptions α :=
  { selector := .val (.key ""), allowUndefined := .val false,
    onError := .val .throwStrat }

/-- The groupBy handler's normalize: spread of the caller record over the
defaults. -/
def groupByHandlerNormalize {α : Type} (input : Option (GroupByOptions α)) : GroupByOptions α :=
  match input with
  | none => groupByDefaults α
  | some o =>
    { selector := overrideField (groupByDefaults α).selector o.selector,
      allowUndefined := overrideField (groupByDefaults α).allowUndefined o.allowUndefined,
      onError := overrideField (groupByDefaults α).onError o.onError }

/-- The groupBy error-context factory: code `GROUP_BY_KEY_MISSING`, a
fixed message, and the `allowUndefined` detail. -/
def groupByErrorContext {α : Type} (o : GroupByOptions α) : UtilsError :=
  { code := "GROUP_BY_KEY_MISSING",
    message := "groupBy selector returned an undefined key",
    details := [("allowUndefined", boolFieldLite o.allowUndefined)] }

/-- `(result[key] ??= []).push(item)`: append to an existing bucket, or
create a new bucket at the end of the record (insertion order). -/
def pushGroup {α : Type} (m : List (String × List α)) (k : String) (v : α) :
    List (String × List α) :=
  match m with
  | [] => [(k, [v])]
  | (k0, vs) :: rest =>
    if k0 == k then (k0, vs ++ [v]) :: rest else (k0, vs) :: pushGroup rest k v

/-- The item loop of `groupByImpl`: fails at the first item whose key is
`undefined` or `null` while `allowUndefined` is falsy, else accumulates
buckets in order. -/
def groupByLoop {α : Type} (get : α → String → KeyVal) (sel : Selector α) (allowUndef : Bool) :
    List α → List (String × List α) → Except Unit (List (String × List α))
  | [], acc => .ok acc
  | item :: rest, acc =>
    let key := evalSelector get sel item
    if isBadKey key && !allowUndef then .error ()
    else groupByLoop get sel allowUndef rest (pushGroup acc (keyToString key) item)

/-- The pure grouping computation on the no-failure path (the loop's
accumulator fold, started from the given accumulator). -/
def groupByCoreAux {α : Type} (get : α → String → KeyVal) (sel : Selector α)
    (acc : List (String × List α)) : List α → List (String × List α)
  | [] => acc
  | item :: rest =>
    groupByCoreAux get sel (pushGroup acc (keyToString (evalSelector get sel item)) item) rest

/-- `groupByImpl`: missing selector and bad-key failures route through the
handler when `onError === 'return'` and otherwise throw a plain `Error`;
the success value is wrapped in `ok(...)` only under `'return'`. -/
def groupByImpl {α : Type} (get : α → String → KeyVal) (array : List α)
    (o : GroupByOptions α) : Outcome (List (String × List α)) :=
  match o.selector with
  | .val sel =>
    match groupByLoop get sel (boolTruthy o.allowUndefined) array [] with
    | .ok result => if isReturn o.onError then .res (.ok result) else .raw result
    | .error () =>
      if isReturn o.onError then handleErrorGeneric (groupByErrorContext o) .returnStrat
      else .thrown (.plain "groupBy selector returned an undefined key")
  | _ =>
    if isReturn o.onError then handleErrorGeneric (groupByErrorContext o) .returnStrat
    else .thrown (.plain "groupBy requires a selector or property key")

/-- The non-array argument accepted by `groupBy`: a bare selector
(function, string or number) or a `GroupByOptions` record. -/
inductive GroupByArg (α : Type) where
  | sel : Selector α → GroupByArg α
  | opts : GroupByOptions α → GroupByArg α

/-- `normalizeGroupByOptions`: a bare selector becomes
`\x7bselector, allowUndefined: false, onError: 'throw'\x7d`; anything else
goes through the handler's normalize. -/
def normalizeGroupByOptions {α : Type} (input : Option (GroupByArg α)) : GroupByOptions α :=
  match input with
  | some (.sel s) =>
    { selector := .val s, allowUndefined := .val false, onError := .val .throwStrat }
  | some (.opts o) => groupByHandlerNormalize (some o)
  | none => groupByHandlerNormalize none

/-- The public `groupBy`: a non-array first argument (`Sum.inr`) selects
the curried data-last form; an array first argument (`Sum.inl`) is
data-first with the second argument as selector-or-options. -/
def groupBy {α : Type} (get : α → String → KeyVal)
    (arg1 : Sum (List α) (GroupByArg α)) (arg2 : Option (GroupByArg α)) :
    DualResult α (Outcome (List (String × List α))) :=
  match arg1 with
  | .inr g => .curried (fun l => groupByImpl get l (normalizeGroupByOptions (some g)))
  | .inl l => .imm (groupByImpl get l (normalizeGroupByOptions arg2))

/-- Bucket lookup in the grouped record (missing key reads as the empty
bucket). -/
def lookupGroup {α : Type} (m : List (String × List α)) (k : String) : List α :=
  match m with
  | [] => []
  | (k0, vs) :: rest => if k0 == k then vs else lookupGroup rest k

/-! ### createDualApi -/

/-- Universe of JavaScript values for the generic dual-call adapter:
arrays, plain objects, exotic objects (non-plain prototype, e.g. `Date`),
primitives, `null` and `undefined`. -/
inductive JSVal where
  | arr : List JSVal → JSVal
  | plainObj : List (String × JSVal) → JSVal
  | exotic : String → JSVal
  | num : JsNum → JSVal
  | str : String → JSVal
  | bool : Bool → JSVal
  | nullV : JSVal
  | undefV : JSVal

/-- `Array.isArray`. -/
def isArrayV : JSVal → Bool
  | .arr _ => true
  | _ => false

/-- `typeof v === 'object' && v !== null`. -/
def isObjectNonNull : JSVal → Bool
  | .arr _ => true
  | .plainObj _ => true
  | .exotic _ => true
  | _ => false

/-- The `isPlainObject` helper: prototype is `null` or
`Object.prototype`. -/
def isPlainObjectV : JSVal → Bool
  | .plainObj _ => true
  | _ => false

/-- `createDualApi`: two proper arguments mean data-first; a single
argument that is an array or a non-plain object is data-first with the
empty options record; any other single argument is captured as options and
a curried function is returned. -/
def createDualApi {τ : Type} (implementation : JSVal → JSVal → τ) (a b : JSVal) :
    Sum τ (JSVal → τ) :=
  match b with
  | .undefV =>
    if isArrayV a || (isObjectNonNull a && !isPlainObjectV a) then
      .inl (implementation a (.plainObj []))
    else
      .inr (fun d => implementation d a)
  | _ => .inl (implementation a b)

/-- `createDualApiStrict`: like `createDualApi` but a supplied `isData`
predicate decides the single-argument case. -/
def createDualApiStrict {τ : Type} (implementation : JSVal → JSVal → τ)
    (isDataCheck : JSVal → Bool) (a b : JSVal) : Sum τ (JSVal → τ) :=
  match b with
  | .undefV =>
    if isDataCheck a then .inl (implementation a (.plainObj []))
    else .inr (fun d => implementation d a)
  | _ => .inl (implementation a b)

/-! ### Fixtures: concrete inputs used to evaluate the theorems -/

/-- The validation predicate of `chunkImpl` on the `size` field: not a
number, NaN, or non-positive. -/
def chunkSizeInvalid : JsField JsNum → Bool
  | .val (.int i) => decide (i ≤ 0)
  | _ => true

/-- A property-access function on `Unit` items whose every property reads
as `undefined`. -/
def getU : Unit → String → KeyVal := fun _ _ => KeyVal.undefV

/-- Normalized groupBy options: selector `'type'`, defaults otherwise. -/
def gbThrowOpts : GroupByOptions Unit :=
  { selector := .val (.key "type"), allowUndefined := .val false,
    onError := .val .throwStrat }

/-- Normalized groupBy options with `onError: 'return'`. -/
def gbReturnOpts : GroupByOptions Unit :=
  { selector := .val (.key "type"), allowUndefined := .val false,
    onError := .val .returnStrat }

/-- Normalized groupBy options with `allowUndefined: true`. -/
def gbAllowOpts : GroupByOptions Unit :=
  { selector := .val (.key "type"), allowUndefined := .val true,
    onError := .val .throwStrat }

/-- Normalized chunk options with size `0`. -/
def chunkZeroThrow : ChunkOptions :=
  { size := .val (.int 0), label := .absent, onError := .val .throwStrat }

/-- Normalized chunk options with size `0` and `onError: 'return'`. -/
def chunkZeroReturn : ChunkOptions :=
  { size := .val (.int 0), label := .absent, onError := .val .returnStrat }

/-- Normalized chunk options with size `2`. -/
def chunkTwoThrow : ChunkOptions :=
  { size := .val (.int 2), label := .absent, onError := .val .throwStrat }

/-- Normalized chunk options with size `2` and `onError: 'return'`. -/
def chunkTwoReturn : ChunkOptions :=
  { size := .val (.int 2), label := .absent, onError := .val .returnStrat }

/-- A caller-supplied record whose `size` field is present with the
explicit value `undefined`. -/
def sizeUndefRecord : ChunkOptions :=
  { size := .undefV, label := .absent, onError := .absent }

/-- A default-options record on keys `Bool`, every field set to `1`. -/
def dFix : Bool → JsField Nat := fun _ => .val 1

/-- A caller record on keys `Bool`: field `true` present with value
`undefined`, field `false` absent. -/
def pFix : Bool → JsField Nat := fun b => if b then .undefV else .absent

/-! ## Helper lemmas -/

theorem chunkCoreFuel_nil {α : Type} (s fuel : Nat) :
    chunkCoreFuel (α := α) s fuel [] = [] := by
  cases fuel <;> rfl

theorem chunkCoreFuel_join {α : Type} (s : Nat) (_hs : 1 ≤ s) :
    ∀ (fuel : Nat) (l : List α), l.length ≤ fuel → (chunkCoreFuel s fuel l).flatten = l := by
  intro fuel
  induction fuel with
  | zero =>
    intro l hl
    have : l = [] := List.length_eq_zero.mp (Nat.le_zero.mp hl)
    subst this
    rfl
  | succ n ih =>
    intro l hl
    cases l with
    | nil => rfl
    | cons x xs =>
      have hlen : (xs.drop (s - 1)).length ≤ n := by
        simp only [List.length_drop]
        simp only [List.length_cons] at hl
        omega
      simp only [chunkCoreFuel, List.flatten_cons, List.cons_append]
      rw [ih _ hlen, List.take_append_drop]

theorem chunkCoreFuel_ne_nil {α : Type} (s fuel : Nat) (x : α) (xs : List α)
    (h : (x :: xs).length ≤ fuel) : chunkCoreFuel s fuel (x :: xs) ≠ [] := by
  cases fuel with
  | zero => simp at h
  | succ n => simp [chunkCoreFuel]

theorem chunkCoreFuel_dropLast_length {α : Type} (s : Nat) (hs : 1 ≤ s) :
    ∀ (fuel : Nat) (l : List α), l.length ≤ fuel →
      ∀ c ∈ (chunkCoreFuel s fuel l).dropLast, c.length = s := by
  intro fuel
  induction fuel with
  | zero =>
    intro l hl
    have : l = [] := List.length_eq_zero.mp (Nat.le_zero.mp hl)
    subst this
    simp [chunkCoreFuel_nil]
  | succ n ih =>
    intro l hl c hc
    cases l with
    | nil => simp [chunkCoreFuel_nil] at hc
    | cons x xs =>
      simp only [chunkCoreFuel] at hc
      cases hrest : xs.drop (s - 1) with
      | nil =>
        rw [hrest, chunkCoreFuel_nil] at hc
        simp at hc
      | cons y ys =>
        have hlen : (y :: ys).length ≤ n := by
          rw [← hrest]
          simp only [List.length_drop]
          simp only [List.length_cons] at hl
          omega
        have hne : chunkCoreFuel s n (xs.drop (s - 1)) ≠ [] := by
          rw [hrest]
          exact chunkCoreFuel_ne_nil s n y ys hlen
        obtain ⟨r, rs, hr⟩ := List.exists_cons_of_ne_nil hne
        rw [hr, List.dropLast_cons₂, List.mem_cons] at hc
        rcases hc with hc | hc
        · subst hc
          have hxl : s - 1 < xs.length := by
            have := congrArg List.length hrest
            simp only [List.length_drop, List.length_cons] at this
            omega
          simp only [List.length_cons, List.length_take]
          omega
        · have := ih (xs.drop (s - 1)) (hrest ▸ hlen) c
          rw [hr] at this
          exact this hc

theorem chunkCoreFuel_getLast {α : Type} (s : Nat) (hs : 1 ≤ s) :
    ∀ (fuel : Nat) (l : List α), l.length ≤ fuel → l ≠ [] →
      ∃ c, (chunkCoreFuel s fuel l).getLast? = some c ∧ 1 ≤ c.length ∧ c.length ≤ s := by
  intro fuel
  induction fuel with
  | zero =>
    intro l hl hne
    exact absurd (List.length_eq_zero.mp (Nat.le_zero.mp hl)) hne
  | succ n ih =>
    intro l hl hne
    cases l with
    | nil => exact absurd rfl hne
    | cons x xs =>
      simp only [chunkCoreFuel]
      cases hrest : xs.drop (s - 1) with
      | nil =>
        rw [chunkCoreFuel_nil]
        refine ⟨x :: xs.take (s - 1), by simp, by simp, ?_⟩
        simp only [List.length_cons, List.length_take]
        omega
      | cons y ys =>
        have hlen : (y :: ys).length ≤ n := by
          rw [← hrest]
          simp only [List.length_drop]
          simp only [List.length_cons] at hl
          omega
        obtain ⟨c, hc, h1, h2⟩ := ih (y :: ys) hlen (by simp)
        refine ⟨c, ?_, h1, h2⟩
        obtain ⟨r, rs, hr⟩ :=
          List.exists_cons_of_ne_nil (chunkCoreFuel_ne_nil s n y ys hlen)
        rw [hr, List.getLast?_cons_cons, ← hr, hc]

theorem chunkCore_join {α : Type} (s : Nat) (hs : 1 ≤ s) (l : List α) :
    (chunkCore s l).flatten = l :=
  chunkCoreFuel_join s hs l.length l le_rfl

theorem chunkCore_dropLast_length {α : Type} (s : Nat) (hs : 1 ≤ s) (l : List α) :
    ∀ c ∈ (chunkCore s l).dropLast, c.length = s :=
  chunkCoreFuel_dropLast_length s hs l.length l le_rfl

theorem chunkCore_getLast {α : Type} (s : Nat) (hs : 1 ≤ s) (l : List α) (hne : l ≠ []) :
    ∃ c, (chunkCore s l).getLast? = some c ∧ 1 ≤ c.length ∧ c.length ≤ s :=
  chunkCoreFuel_getLast s hs l.length l le_rfl hne

theorem groupByLoop_error {α : Type} (get : α → String → KeyVal) (sel : Selector α)
    (allow : Bool) :
    ∀ (l : List α) (acc : List (String × List α)),
      (∃ x ∈ l, (isBadKey (evalSelector get sel x) && !allow) = true) →
      groupByLoop get sel allow l acc = .error () := by
  intro l
  induction l with
  | nil =>
    rintro acc ⟨x, hx, _⟩
    simp at hx
  | cons a rest ih =>
    rintro acc ⟨x, hx, hbad⟩
    by_cases h : (isBadKey (evalSelector get sel a) && !allow) = true
    · simp only [groupByLoop, h, if_true]
    · have hstep : groupByLoop get sel allow (a :: rest) acc
          = groupByLoop get sel allow rest
              (pushGroup acc (keyToString (evalSelector get sel a)) a) := by
        simp only [groupByLoop, h, if_false, Bool.false_eq_true, ite_false]
      rw [hstep]
      apply ih
      rcases List.mem_cons.mp hx with hxa | hxr
      · subst hxa
        exact absurd hbad h
      · exact ⟨x, hxr, hbad⟩

theorem groupByLoop_ok {α : Type} (get : α → String → KeyVal) (sel : Selector α)
    (allow : Bool) :
    ∀ (l : List α) (acc : List (String × List α)),
      (∀ x ∈ l, (isBadKey (evalSelector get sel x) && !allow) = false) →
      groupByLoop get sel allow l acc = .ok (groupByCoreAux get sel acc l) := by
  intro l
  induction l with
  | nil => intro acc _; rfl
  | cons a rest ih =>
    intro acc hgood
    have ha : (isBadKey (evalSelector get sel a) && !allow) = false :=
      hgood a (List.mem_cons_self a rest)
    simp only [groupByLoop, ha, Bool.false_eq_true, ite_false, groupByCoreAux]
    exact ih _ fun x hx => hgood x (List.mem_cons_of_mem a hx)

theorem lookupGroup_pushGroup_same {α : Type} (m : List (String × List α)) (k : String)
    (v : α) : lookupGroup (pushGroup m k v) k = lookupGroup m k ++ [v] := by
  induction m with
  | nil => simp [pushGroup, lookupGroup]
  | cons p rest ih =>
    obtain ⟨k0, vs⟩ := p
    by_cases h : k0 = k
    · simp [pushGroup, lookupGroup, h]
    · simp [pushGroup, lookupGroup, h, ih]

theorem lookupGroup_pushGroup_ne {α : Type} (m : List (String × List α)) (k k2 : String)
    (v : α) (h : k ≠ k2) : lookupGroup (pushGroup m k v) k2 = lookupGroup m k2 := by
  induction m with
  | nil => simp [pushGroup, lookupGroup, h]
  | cons p rest ih =>
    obtain ⟨k0, vs⟩ := p
    by_cases h0 : k0 = k
    · subst h0
      simp [pushGroup, lookupGroup, h]
    · by_cases h2 : k0 = k2
      · simp [pushGroup, lookupGroup, h0, h2, Ne.symm h]
      · simp [pushGroup, lookupGroup, h0, h2, ih]

theorem mem_lookupGroup_coreAux {α : Type} (get : α → String → KeyVal) (sel : Selector α) :
    ∀ (l : List α) (acc : List (String × List α)) (k : String) (x : α),
      x ∈ lookupGroup acc k → x ∈ lookupGroup (groupByCoreAux get sel acc l) k := by
  intro l
  induction l with
  | nil => intro acc k x hx; exact hx
  | cons a rest ih =>
    intro acc k x hx
    apply ih
    by_cases hk : keyToString (evalSelector get sel a) = k
    · rw [hk, lookupGroup_pushGroup_same]
      exact List.mem_append_left _ hx
    · rw [lookupGroup_pushGroup_ne _ _ _ _ hk]
      exact hx

theorem mem_bucket_of_mem {α : Type} (get : α → String → KeyVal) (sel : Selector α) :
    ∀ (l : List α) (acc : List (String × List α)) (x : α), x ∈ l →
      x ∈ lookupGroup (groupByCoreAux get sel acc l) (keyToString (evalSelector get sel x)) := by
  intro l
  induction l with
  | nil => intro acc x hx; simp at hx
  | cons a rest ih =>
    intro acc x hx
    rcases List.mem_cons.mp hx with hxa | hxr
    · subst hxa
      simp only [groupByCoreAux]
      apply mem_lookupGroup_coreAux
      rw [lookupGroup_pushGroup_same]
      exact List.mem_append_right _ (List.mem_singleton.mpr rfl)
    · exact ih _ x hxr

theorem overrideField_idem {α : Type} (d p : JsField α) :
    overrideField d (overrideField d p) = overrideField d p := by
  cases p <;> cases d <;> rfl

theorem overrideField_eq {α : Type} (d p : JsField α) :
    (p = JsField.absent → overrideField d p = d) ∧
    (p ≠ JsField.absent → overrideField d p = p) := by
  cases p <;> simp [overrideField]

/-! ## Claims -/

/-- C2: for every array `X` and options value `O`, the data-first call
`op(X, O)` and the data-last (curried) call `op(O)(X)` of `chunk` and of
`groupBy` produce identical results — the curried form exists and applying
it to `X` yields exactly the immediate result of the data-first call
(hence the same success value, classification and error code). -/
theorem dual_call_equivalence (α : Type) (get : α → String → KeyVal)
    (X : List α) (oc : ChunkOptsArg) (og : GroupByArg α) :
    (∃ f, chunk (Sum.inr oc) none = DualResult.curried f ∧
      chunk (Sum.inl X) (some oc) = DualResult.imm (f X)) ∧
    (∃ g, groupBy get (Sum.inr og) none = DualResult.curried g ∧
      groupBy get (Sum.inl X) (some og) = DualResult.imm (g X)) :=
  ⟨⟨_, rfl, rfl⟩, ⟨_, rfl, rfl⟩⟩

/-- C6: single-argument dispatch of the dual-call adapter.  Without a
predicate, an array argument is data and the implementation runs at once
with the empty options record (the adapter-level stand-in for defaults,
filled in by the operation's own normalization), while a plain key-value
record is captured as options and a curried one-argument function is
returned; with a predicate (strict variant), an argument satisfying it is
data-first-with-defaults and any other argument is captured as options. -/
theorem dual_api_single_argument_dispatch (τ : Type) (implementation : JSVal → JSVal → τ)
    (p : JSVal → Bool) (xs : List JSVal) (fields : List (String × JSVal)) (v : JSVal) :
    createDualApi implementation (.arr xs) .undefV
      = Sum.inl (implementation (.arr xs) (.plainObj [])) ∧
    createDualApi implementation (.plainObj fields) .undefV
      = Sum.inr (fun d => implementation d (.plainObj fields)) ∧
    createDualApiStrict implementation p v .undefV
      = (if p v then Sum.inl (implementation v (.plainObj []))
         else Sum.inr (fun d => implementation d v)) :=
  ⟨rfl, rfl, rfl⟩

/-- C8: option normalization is idempotent — both for the generic
pointwise `normalizeOptions` merge and for the chunk and groupBy handler
normalizers, normalizing an already-normalized record returns an identical
record. -/
theorem normalize_idempotent :
    (∀ (K V : Type) (defaults p : K → JsField V),
      normalizeOptions (some (normalizeOptions (some p) defaults)) defaults
        = normalizeOptions (some p) defaults) ∧
    (∀ (input : Option ChunkOptions),
      chunkHandlerNormalize (some (chunkHandlerNormalize input)) = chunkHandlerNormalize input) ∧
    (∀ (α : Type) (input : Option (GroupByOptions α)),
      groupByHandlerNormalize (some (groupByHandlerNormalize input))
        = groupByHandlerNormalize input) := by
  refine ⟨?_, ?_, ?_⟩
  · intro K V defaults p
    funext k
    simp only [normalizeOptions]
    exact overrideField_idem _ _
  · intro input
    cases input with
    | none => rfl
    | some o => simp only [chunkHandlerNormalize, overrideField_idem]
  · intro α input
    cases input with
    | none => rfl
    | some o => simp only [groupByHandlerNormalize, overrideField_idem]

/-- C9: for every array and positive integer size, the successful chunk
call returns exactly the chunks of the core loop (unwrapped or wrapped
according to the policy); those chunks concatenate in order back to the
input, every chunk except possibly the last has length exactly the size,
the last chunk has length between 1 and the size, and the empty array
yields the empty list of chunks. -/
theorem chunk_partition (α : Type) (l : List α) (s : Int) (hs : 0 < s)
    (lbl : JsField String) (oe : JsField ErrorStrategy) :
    chunkImpl l { size := .val (.int s), label := lbl, onError := oe }
      = wrapResult oe (chunkCore s.toNat l) ∧
    (chunkCore s.toNat l).flatten = l ∧
    (∀ c ∈ (chunkCore s.toNat l).dropLast, c.length = s.toNat) ∧
    (l ≠ [] → ∃ c, (chunkCore s.toNat l).getLast? = some c ∧
      1 ≤ c.length ∧ c.length ≤ s.toNat) ∧
    chunkCore s.toNat ([] : List α) = [] := by
  have hnat : 1 ≤ s.toNat := by omega
  have hns : ¬s ≤ 0 := by omega
  refine ⟨?_, chunkCore_join s.toNat hnat l, chunkCore_dropLast_length s.toNat hnat l,
    chunkCore_getLast s.toNat hnat l, rfl⟩
  simp [chunkImpl, hns]

/-- Witness: chunk_partition evaluated on `[1,2,3,4,5]` with size 2. -/
theorem chunk_partition_witness :
    chunkImpl [1, 2, 3, 4, 5]
        { size := .val (.int 2), label := .absent, onError := .val .throwStrat }
      = wrapResult (.val .throwStrat) (chunkCore (Int.toNat 2) [1, 2, 3, 4, 5]) ∧
    (chunkCore (Int.toNat 2) [1, 2, 3, 4, 5]).flatten = [1, 2, 3, 4, 5] ∧
    (∀ c ∈ (chunkCore (Int.toNat 2) [1, 2, 3, 4, 5]).dropLast, c.length = Int.toNat 2) ∧
    ([1, 2, 3, 4, 5] ≠ ([] : List Nat) →
      ∃ c, (chunkCore (Int.toNat 2) [1, 2, 3, 4, 5]).getLast? = some c ∧
        1 ≤ c.length ∧ c.length ≤ Int.toNat 2) ∧
    chunkCore (Int.toNat 2) ([] : List Nat) = [] :=
  chunk_partition Nat [1, 2, 3, 4, 5] 2 (by decide) .absent (.val .throwStrat)

/-- C1 counterexample: a failing groupBy call (selector reads `undefined`
for the only item, `allowUndefined` false) whose normalized options carry
the raise policy throws a plain `Error` with no `code` field at all — not
an error whose `code` is `GROUP_BY_KEY_MISSING`; the options record used
is exactly what normalizing the bare selector `'type'` produces. -/
theorem groupBy_raise_lacks_code :
    ∃ e, groupByImpl getU [()] gbThrowOpts = Outcome.thrown e ∧
      JsError.code e ≠ some "GROUP_BY_KEY_MISSING" ∧
      gbThrowOpts.onError = JsField.val .throwStrat ∧
      normalizeGroupByOptions (some (.sel (.key "type"))) = gbThrowOpts :=
  ⟨.plain "groupBy selector returned an undefined key", rfl, by decide, rfl, rfl⟩

/-- C1 amended: under a raise policy (onError absent or `'throw'`), a
failing chunk call (non-positive size) throws a `UtilsError` whose `code`
is `INVALID_CHUNK_SIZE`, but a failing groupBy call (selector yielding an
undefined key, `allowUndefined` false) throws a plain `Error` — message
`groupBy selector returned an undefined key` — that carries no `code`
field; only chunk's raised error carries its documented code. -/
theorem raise_policy_error_codes :
    (∀ (α : Type) (l : List α) (o : ChunkOptions) (i : Int),
      o.size = JsField.val (.int i) → i ≤ 0 →
      (o.onError = JsField.absent ∨ o.onError = JsField.val .throwStrat) →
      ∃ e, chunkImpl l o = Outcome.thrown (.utils e) ∧ e.code = "INVALID_CHUNK_SIZE") ∧
    (∀ (α : Type) (get : α → String → KeyVal) (l : List α) (o : GroupByOptions α)
      (sel : Selector α),
      o.selector = JsField.val sel → boolTruthy o.allowUndefined = false →
      (∃ x ∈ l, evalSelector get sel x = KeyVal.undefV) →
      (o.onError = JsField.absent ∨ o.onError = JsField.val .throwStrat) →
      groupByImpl get l o
        = Outcome.thrown (.plain "groupBy selector returned an undefined key")) := by
  constructor
  · intro α l o i hsz hle honerr
    have hco : coalesceThrow o.onError = .throwStrat := by
      rcases honerr with h | h <;> rw [h] <;> rfl
    refine ⟨chunkErrorContext o, ?_, rfl⟩
    simp [chunkImpl, hsz, hle, hco, handleErrorGeneric]
  · intro α get l o sel hsel hallow hbad honerr
    have hir : isReturn o.onError = false := by
      rcases honerr with h | h <;> rw [h] <;> rfl
    have hloop : groupByLoop get sel (boolTruthy o.allowUndefined) l [] = .error () := by
      apply groupByLoop_error
      obtain ⟨x, hx, hux⟩ := hbad
      exact ⟨x, hx, by rw [hux, hallow]; rfl⟩
    simp [groupByImpl, hsel, hloop, hir]

/-- Witness: raise_policy_error_codes at chunk size 0 on `[1, 2]` and at
a groupBy whose selector reads `undefined` on a one-item array. -/
theorem raise_policy_error_codes_witness :
    (∃ e, chunkImpl [1, 2] chunkZeroThrow = Outcome.thrown (.utils e) ∧
      e.code = "INVALID_CHUNK_SIZE") ∧
    groupByImpl getU [()] gbThrowOpts
      = Outcome.thrown (.plain "groupBy selector returned an undefined key") :=
  ⟨raise_policy_error_codes.1 Nat [1, 2] chunkZeroThrow 0 rfl (by decide) (Or.inr rfl),
   raise_policy_error_codes.2 Unit getU [()] gbThrowOpts (.key "type") rfl (by decide)
     ⟨(), by simp, rfl⟩ (Or.inr rfl)⟩

/-- C3: with `onError: 'return'`, neither operation ever raises, and every
failing invocation (chunk: invalid size; groupBy: missing selector, or a
disallowed undefined/null key on some item) returns a `Failure` outcome
whose error `code` is the operation's documented failure code. -/
theorem return_policy_failure_outcomes :
    (∀ (α : Type) (l : List α) (o : ChunkOptions),
      o.onError = JsField.val .returnStrat →
      (∀ e, chunkImpl l o ≠ Outcome.thrown e) ∧
      (chunkSizeInvalid o.size = true →
        ∃ e, chunkImpl l o = Outcome.res (.err (.utils e)) ∧
          e.code = "INVALID_CHUNK_SIZE")) ∧
    (∀ (α : Type) (get : α → String → KeyVal) (l : List α) (o : GroupByOptions α),
      o.onError = JsField.val .returnStrat →
      (∀ e, groupByImpl get l o ≠ Outcome.thrown e) ∧
      ((o.selector = JsField.absent ∨ o.selector = JsField.undefV) →
        ∃ e, groupByImpl get l o = Outcome.res (.err (.utils e)) ∧
          e.code = "GROUP_BY_KEY_MISSING") ∧
      (∀ sel, o.selector = JsField.val sel →
        (∃ x ∈ l, (isBadKey (evalSelector get sel x) && !boolTruthy o.allowUndefined) = true) →
        ∃ e, groupByImpl get l o = Outcome.res (.err (.utils e)) ∧
          e.code = "GROUP_BY_KEY_MISSING")) := by
  constructor
  · intro α l o h
    have hco : coalesceThrow o.onError = .returnStrat := by rw [h]; rfl
    have hir : isReturn o.onError = true := by rw [h]; rfl
    constructor
    · intro e
      cases hsz : o.size with
      | absent => simp [chunkImpl, hsz, hco, handleErrorGeneric]
      | undefV => simp [chunkImpl, hsz, hco, handleErrorGeneric]
      | val n =>
        cases n with
        | nan => simp [chunkImpl, hsz, hco, handleErrorGeneric]
        | int i =>
          by_cases hile : i ≤ 0
          · simp [chunkImpl, hsz, hile, hco, handleErrorGeneric]
          · simp [chunkImpl, hsz, hile, wrapResult, hir]
    · intro hinv
      refine ⟨chunkErrorContext o, ?_, rfl⟩
      cases hsz : o.size with
      | absent => simp [chunkImpl, hsz, hco, handleErrorGeneric]
      | undefV => simp [chunkImpl, hsz, hco, handleErrorGeneric]
      | val n =>
        cases n with
        | nan => simp [chunkImpl, hsz, hco, handleErrorGeneric]
        | int i =>
          rw [hsz] at hinv
          simp only [chunkSizeInvalid, decide_eq_true_eq] at hinv
          simp [chunkImpl, hsz, hinv, hco, handleErrorGeneric]
  · intro α get l o h
    have hir : isReturn o.onError = true := by rw [h]; rfl
    refine ⟨?_, ?_, ?_⟩
    · intro e
      cases hsel : o.selector with
      | absent => simp [groupByImpl, hsel, hir, handleErrorGeneric]
      | undefV => simp [groupByImpl, hsel, hir, handleErrorGeneric]
      | val sel =>
        cases hloop : groupByLoop get sel (boolTruthy o.allowUndefined) l [] with
        | ok r => simp [groupByImpl, hsel, hloop, hir]
        | error u =>
          cases u
          simp [groupByImpl, hsel, hloop, hir, handleErrorGeneric]
    · intro hmiss
      refine ⟨groupByErrorContext o, ?_, rfl⟩
      rcases hmiss with hsel | hsel <;>
        simp [groupByImpl, hsel, hir, handleErrorGeneric]
    · intro sel hsel hbad
      have hloop : groupByLoop get sel (boolTruthy o.allowUndefined) l [] = .error () :=
        groupByLoop_error get sel _ l [] hbad
      refine ⟨groupByErrorContext o, ?_, rfl⟩
      simp [groupByImpl, hsel, hloop, hir, handleErrorGeneric]

/-- Witness: return_policy_failure_outcomes at chunk size 0 and at a
groupBy whose selector reads `undefined`, both with `onError: 'return'`. -/
theorem return_policy_failure_outcomes_witness :
    ((∀ e, chunkImpl [1, 2] chunkZeroReturn ≠ Outcome.thrown e) ∧
      (∃ e, chunkImpl [1, 2] chunkZeroReturn = Outcome.res (.err (.utils e)) ∧
        e.code = "INVALID_CHUNK_SIZE")) ∧
    ((∀ e, groupByImpl getU [()] gbReturnOpts ≠ Outcome.thrown e) ∧
      (∃ e, groupByImpl getU [()] gbReturnOpts = Outcome.res (.err (.utils e)) ∧
        e.code = "GROUP_BY_KEY_MISSING")) := by
  have hc := return_policy_failure_outcomes.1 Nat [1, 2] chunkZeroReturn rfl
  have hg := return_policy_failure_outcomes.2 Unit getU [()] gbReturnOpts rfl
  exact ⟨⟨hc.1, hc.2 (by decide)⟩,
    ⟨hg.1, hg.2.2 (.key "type") rfl ⟨(), by simp, by decide⟩⟩⟩

/-- C4: on a successful invocation, a raise policy (onError absent or
`'throw'`) returns the raw implementation result unwrapped, and
`onError: 'return'` returns a success outcome whose value is that same
raw result — for both chunk and groupBy. -/
theorem success_wrapping :
    (∀ (α : Type) (l : List α) (o : ChunkOptions) (i : Int),
      o.size = JsField.val (.int i) → 0 < i →
      ((o.onError = JsField.absent ∨ o.onError = JsField.val .throwStrat) →
        chunkImpl l o = Outcome.raw (chunkCore i.toNat l)) ∧
      (o.onError = JsField.val .returnStrat →
        chunkImpl l o = Outcome.res (.ok (chunkCore i.toNat l)))) ∧
    (∀ (α : Type) (get : α → String → KeyVal) (l : List α) (o : GroupByOptions α)
      (sel : Selector α),
      o.selector = JsField.val sel →
      (∀ x ∈ l, (isBadKey (evalSelector get sel x) && !boolTruthy o.allowUndefined) = false) →
      ((o.onError = JsField.absent ∨ o.onError = JsField.val .throwStrat) →
        groupByImpl get l o = Outcome.raw (groupByCoreAux get sel [] l)) ∧
      (o.onError = JsField.val .returnStrat →
        groupByImpl get l o = Outcome.res (.ok (groupByCoreAux get sel [] l)))) := by
  constructor
  · intro α l o i hsz hpos
    have hns : ¬i ≤ 0 := by omega
    constructor
    · intro honerr
      have hir : isReturn o.onError = false := by
        rcases honerr with h | h <;> rw [h] <;> rfl
      simp [chunkImpl, hsz, hns, wrapResult, hir]
    · intro honerr
      have hir : isReturn o.onError = true := by rw [honerr]; rfl
      simp [chunkImpl, hsz, hns, wrapResult, hir]
  · intro α get l o sel hsel hgood
    have hloop : groupByLoop get sel (boolTruthy o.allowUndefined) l []
        = .ok (groupByCoreAux get sel [] l) :=
      groupByLoop_ok get sel _ l [] hgood
    constructor
    · intro honerr
      have hir : isReturn o.onError = false := by
        rcases honerr with h | h <;> rw [h] <;> rfl
      simp [groupByImpl, hsel, hloop, hir]
    · intro honerr
      have hir : isReturn o.onError = true := by rw [honerr]; rfl
      simp [groupByImpl, hsel, hloop, hir]

/-- Witness: success_wrapping at chunk size 2 on `[1,2,3,4,5]` (both
policies) and at a well-keyed groupBy on a one-item array (both
policies). -/
theorem success_wrapping_witness :
    chunkImpl [1, 2, 3, 4, 5] chunkTwoThrow
      = Outcome.raw (chunkCore (Int.toNat 2) [1, 2, 3, 4, 5]) ∧
    chunkImpl [1, 2, 3, 4, 5] chunkTwoReturn
      = Outcome.res (.ok (chunkCore (Int.toNat 2) [1, 2, 3, 4, 5])) ∧
    groupByImpl (fun (_ : Unit) (_ : String) => KeyVal.str "a") [()] gbThrowOpts
      = Outcome.raw (groupByCoreAux (fun (_ : Unit) (_ : String) => KeyVal.str "a")
          (.key "type") [] [()]) := by
  refine ⟨(success_wrapping.1 Nat [1, 2, 3, 4, 5] chunkTwoThrow 2 rfl (by decide)).1
      (Or.inr rfl),
    (success_wrapping.1 Nat [1, 2, 3, 4, 5] chunkTwoReturn 2 rfl (by decide)).2 rfl,
    (success_wrapping.2 Unit (fun _ _ => KeyVal.str "a") [()] gbThrowOpts
      (.key "type") rfl ?_).1 (Or.inr rfl)⟩
  intro x hx
  rfl

/-- C5 counterexample: a caller record whose `size` field is present with
the explicit value `undefined` does not keep the default `size` after
normalization — the spread merge lets the explicit `undefined` override
the default value `1`, contradicting the claim that a field present with
value `undefined` equals the default's value. -/
theorem normalize_explicit_undefined_overrides :
    sizeUndefRecord.size = JsField.undefV ∧
    (chunkHandlerNormalize (some sizeUndefRecord)).size ≠ chunkDefaults.size := by
  exact ⟨rfl, by decide⟩

/-- C5 amended: normalization (always-total spread merge over defaults)
gives, for every field, the default's value when the field is absent from
the caller record, and the caller's value whenever the field is present —
including a field present with the explicit value `undefined`; stated for
the generic pointwise `normalizeOptions` and for each field of the chunk
and groupBy handler normalizers. -/
theorem normalize_merge_semantics :
    (∀ (K V : Type) (defaults p : K → JsField V) (k : K),
      (p k = JsField.absent → normalizeOptions (some p) defaults k = defaults k) ∧
      (p k ≠ JsField.absent → normalizeOptions (some p) defaults k = p k)) ∧
    (∀ (o : ChunkOptions),
      ((o.size = JsField.absent →
          (chunkHandlerNormalize (some o)).size = chunkDefaults.size) ∧
        (o.size ≠ JsField.absent → (chunkHandlerNormalize (some o)).size = o.size)) ∧
      ((o.label = JsField.absent →
          (chunkHandlerNormalize (some o)).label = chunkDefaults.label) ∧
        (o.label ≠ JsField.absent → (chunkHandlerNormalize (some o)).label = o.label)) ∧
      ((o.onError = JsField.absent →
          (chunkHandlerNormalize (some o)).onError = chunkDefaults.onError) ∧
        (o.onError ≠ JsField.absent →
          (chunkHandlerNormalize (some o)).onError = o.onError))) ∧
    (∀ (α : Type) (o : GroupByOptions α),
      ((o.selector = JsField.absent →
          (groupByHandlerNormalize (some o)).selector = (groupByDefaults α).selector) ∧
        (o.selector ≠ JsField.absent →
          (groupByHandlerNormalize (some o)).selector = o.selector)) ∧
      ((o.allowUndefined = JsField.absent →
          (groupByHandlerNormalize (some o)).allowUndefined
            = (groupByDefaults α).allowUndefined) ∧
        (o.allowUndefined ≠ JsField.absent →
          (groupByHandlerNormalize (some o)).allowUndefined = o.allowUndefined)) ∧
      ((o.onError = JsField.absent →
          (groupByHandlerNormalize (some o)).onError = (groupByDefaults α).onError) ∧
        (o.onError ≠ JsField.absent →
          (groupByHandlerNormalize (some o)).onError = o.onError))) := by
  refine ⟨?_, ?_, ?_⟩
  · intro K V defaults p k
    exact overrideField_eq (defaults k) (p k)
  · intro o
    exact ⟨overrideField_eq _ _, overrideField_eq _ _, overrideField_eq _ _⟩
  · intro α o
    exact ⟨overrideField_eq _ _, overrideField_eq _ _, overrideField_eq _ _⟩

/-- Witness: normalize_merge_semantics at the concrete records `dFix`
(defaults all `1`) and `pFix` (field `true` explicitly `undefined`, field
`false` absent), and at the explicit-undefined chunk record. -/
theorem normalize_merge_semantics_witness :
    normalizeOptions (some pFix) dFix false = dFix false ∧
    normalizeOptions (some pFix) dFix true = pFix true ∧
    (chunkHandlerNormalize (some sizeUndefRecord)).size = sizeUndefRecord.size := by
  refine ⟨(normalize_merge_semantics.1 Bool Nat dFix pFix false).1 (by decide),
    (normalize_merge_semantics.1 Bool Nat dFix pFix true).2 (by decide),
    (normalize_merge_semantics.2.1 sizeUndefRecord).1.2 (by decide)⟩

/-- C7: on an array containing an item whose selector reads `undefined`,
groupBy with `allowUndefined` false and `onError: 'return'` returns a
`Failure` outcome, while with `allowUndefined` true it succeeds (raw or
wrapped according to the policy) and places every such item in the bucket
keyed by the string `undefined`. -/
theorem groupBy_undefined_key_policy (α : Type) (get : α → String → KeyVal)
    (l : List α) (sel : Selector α) (o1 o2 : GroupByOptions α)
    (h1s : o1.selector = JsField.val sel) (h1a : boolTruthy o1.allowUndefined = false)
    (h1e : o1.onError = JsField.val .returnStrat)
    (h2s : o2.selector = JsField.val sel) (h2a : boolTruthy o2.allowUndefined = true)
    (hbad : ∃ x ∈ l, evalSelector get sel x = KeyVal.undefV) :
    (∃ e, groupByImpl get l o1 = Outcome.res (.err e)) ∧
    (groupByImpl get l o2 = Outcome.raw (groupByCoreAux get sel [] l) ∨
      groupByImpl get l o2 = Outcome.res (.ok (groupByCoreAux get sel [] l))) ∧
    (∀ x ∈ l, evalSelector get sel x = KeyVal.undefV →
      x ∈ lookupGroup (groupByCoreAux get sel [] l) "undefined") := by
  have hir1 : isReturn o1.onError = true := by rw [h1e]; rfl
  refine ⟨?_, ?_, ?_⟩
  · have hloop : groupByLoop get sel (boolTruthy o1.allowUndefined) l [] = .error () := by
      apply groupByLoop_error
      obtain ⟨x, hx, hux⟩ := hbad
      exact ⟨x, hx, by rw [hux, h1a]; rfl⟩
    exact ⟨.utils (groupByErrorContext o1),
      by simp [groupByImpl, h1s, hloop, hir1, handleErrorGeneric]⟩
  · have hloop : groupByLoop get sel (boolTruthy o2.allowUndefined) l []
        = .ok (groupByCoreAux get sel [] l) := by
      apply groupByLoop_ok
      intro x hx
      rw [h2a]
      simp
    cases hir2 : isReturn o2.onError with
    | false => exact Or.inl (by simp [groupByImpl, h2s, hloop, hir2])
    | true => exact Or.inr (by simp [groupByImpl, h2s, hloop, hir2])
  · intro x hx hux
    have := mem_bucket_of_mem get sel l [] x hx
    rw [hux] at this
    exact this

/-- Witness: groupBy_undefined_key_policy on a one-item array whose
selector reads `undefined`, with the `'return'`-policy options and the
`allowUndefined: true` options. -/
theorem groupBy_undefined_key_policy_witness :
    (∃ e, groupByImpl getU [()] gbReturnOpts = Outcome.res (.err e)) ∧
    (groupByImpl getU [()] gbAllowOpts
        = Outcome.raw (groupByCoreAux getU (.key "type") [] [()]) ∨
      groupByImpl getU [()] gbAllowOpts
        = Outcome.res (.ok (groupByCoreAux getU (.key "type") [] [()]))) ∧
    (∀ x ∈ [()], evalSelector getU (.key "type") x = KeyVal.undefV →
      x ∈ lookupGroup (groupByCoreAux getU (.key "type") [] [()]) "undefined") :=
  groupBy_undefined_key_policy Unit getU [()] (.key "type") gbReturnOpts gbAllowOpts
    rfl (by decide) rfl rfl (by decide) ⟨(), by simp, rfl⟩

/-- C10: a selector result of `null` behaves like `undefined` at the
public interface — with `allowUndefined` false the call fails (a thrown
plain error under the raise policy, a `Failure` outcome under
`onError: 'return'`), and with `allowUndefined` true every such item is
grouped under the string bucket key `null`. -/
theorem groupBy_null_key_policy (α : Type) (get : α → String → KeyVal)
    (l : List α) (sel : Selector α) (o1 o2 : GroupByOptions α)
    (h1s : o1.selector = JsField.val sel) (h1a : boolTruthy o1.allowUndefined = false)
    (h2s : o2.selector = JsField.val sel) (h2a : boolTruthy o2.allowUndefined = true)
    (hnull : ∃ x ∈ l, evalSelector get sel x = KeyVal.nullV) :
    (o1.onError = JsField.val .returnStrat →
      ∃ e, groupByImpl get l o1 = Outcome.res (.err e)) ∧
    ((o1.onError = JsField.absent ∨ o1.onError = JsField.val .throwStrat) →
      ∃ m, groupByImpl get l o1 = Outcome.thrown (.plain m)) ∧
    (groupByImpl get l o2 = Outcome.raw (groupByCoreAux get sel [] l) ∨
      groupByImpl get l o2 = Outcome.res (.ok (groupByCoreAux get sel [] l))) ∧
    (∀ x ∈ l, evalSelector get sel x = KeyVal.nullV →
      x ∈ lookupGroup (groupByCoreAux get sel [] l) "null") := by
  have hloop1 : groupByLoop get sel (boolTruthy o1.allowUndefined) l [] = .error () := by
    apply groupByLoop_error
    obtain ⟨x, hx, hux⟩ := hnull
    exact ⟨x, hx, by rw [hux, h1a]; rfl⟩
  refine ⟨?_, ?_, ?_, ?_⟩
  · intro h1e
    have hir1 : isReturn o1.onError = true := by rw [h1e]; rfl
    exact ⟨.utils (groupByErrorContext o1),
      by simp [groupByImpl, h1s, hloop1, hir1, handleErrorGeneric]⟩
  · intro h1e
    have hir1 : isReturn o1.onError = false := by
      rcases h1e with h | h <;> rw [h] <;> rfl
    exact ⟨"groupBy selector returned an undefined key",
      by simp [groupByImpl, h1s, hloop1, hir1]⟩
  · have hloop : groupByLoop get sel (boolTruthy o2.allowUndefined) l []
        = .ok (groupByCoreAux get sel [] l) := by
      apply groupByLoop_ok
      intro x hx
      rw [h2a]
      simp
    cases hir2 : isReturn o2.onError with
    | false => exact Or.inl (by simp [groupByImpl, h2s, hloop, hir2])
    | true => exact Or.inr (by simp [groupByImpl, h2s, hloop, hir2])
  · intro x hx hux
    have := mem_bucket_of_mem get sel l [] x hx
    rw [hux] at this
    exact this

/-- Witness: groupBy_null_key_policy on a one-item array whose selector
reads `null`. -/
theorem groupBy_null_key_policy_witness :
    (∃ e, groupByImpl (fun (_ : Unit) (_ : String) => KeyVal.nullV) [()] gbReturnOpts
      = Outcome.res (.err e)) ∧
    (∃ m, groupByImpl (fun (_ : Unit) (_ : String) => KeyVal.nullV) [()] gbThrowOpts
      = Outcome.thrown (.plain m)) ∧
    (∀ x ∈ [()],
      evalSelector (fun (_ : Unit) (_ : String) => KeyVal.nullV) (.key "type") x
        = KeyVal.nullV →
      x ∈ lookupGroup
        (groupByCoreAux (fun (_ : Unit) (_ : String) => KeyVal.nullV) (.key "type") [] [()])
        "null") := by
  have h1 := groupBy_null_key_policy Unit (fun _ _ => KeyVal.nullV) [()] (.key "type")
    gbReturnOpts gbAllowOpts rfl (by decide) rfl (by decide) ⟨(), by simp, rfl⟩
  have h2 := groupBy_null_key_policy Unit (fun _ _ => KeyVal.nullV) [()] (.key "type")
    gbThrowOpts gbAllowOpts rfl (by decide) rfl (by decide) ⟨(), by simp, rfl⟩
  exact ⟨h1.1 rfl, h2.2.1 (Or.inr rfl), h1.2.2.2⟩

end UtilsTs
